import Mathlib

/-!
# github-repo-analyzer: `src/script.js`

A shallow embedding of the page script and proofs about it.

* JavaScript strings are sequences of UTF-16 code units (`JsString`); the
  regular expression of `parseRepoUrl` has no `u` flag, so it works on code
  units.
* Day counts are integers (`Int`).  The numbers the script only interpolates
  into a template (star, fork and watcher counts, contribution counts) are
  given by the text the interpolation produces (`JsNumber`).
* The DOM regions are the strings assigned to `innerHTML` / `textContent`.
* Chart.js is external: a chart instance is a record in a heap of charts with
  a `destroyed` flag, `new Chart` appends a record and `destroy()` sets the
  flag.
* The network is a parameter: what `fetch` settles to for each endpoint.  The
  submit handler is run to completion, one submission at a time.
-/

namespace RepoAnalyzer

/-! ## JavaScript strings -/

/-- A JavaScript string: its UTF-16 code units. -/
abbrev JsString := List Nat

/-- UTF-16 encoding of one Unicode scalar value. -/
def utf16 (c : Char) : JsString :=
  if c.toNat < 65536 then [c.toNat]
  else [55296 + (c.toNat - 65536) / 1024, 56320 + (c.toNat - 65536) % 1024]

/-- The JavaScript string written as the literal `s`. -/
def js (s : String) : JsString := s.toList.flatMap utf16

/-! ## `parseRepoUrl` (script.js 19-27)

The pattern is `/github.com\/(.+?)\/(.+?)(?:$|[\/#?])/i`: no `u`, `m`, `s` or
`g` flag.  The matcher below is the backtracking matcher of the language
specification written in continuation-passing style, one combinator per
pattern construct, each receiving the rest of the input. -/

/-- Line terminators (LF, CR, LS, PS): the code units `.` does not match. -/
def isLineTerminator (c : Nat) : Bool :=
  c == 10 || c == 13 || c == 8232 || c == 8233

/-- Case folding of the `i` flag, restricted to what decides a comparison
against an ASCII pattern character: `Canonicalize` upper-cases a code unit and
never maps a code unit of 128 or more to one below 128, so a code unit equals
an ASCII pattern character under `i` exactly when both are ASCII and agree
after ASCII upper-casing. -/
def canonicalize (c : Nat) : Nat :=
  if 97 ≤ c ∧ c ≤ 122 then c - 32 else c

/-- A literal pattern character under the `i` flag, then the continuation. -/
def litChar {β : Type} (p : Nat) (k : JsString → Option β) : JsString → Option β
  | [] => none
  | c :: rest => if canonicalize c = canonicalize p then k rest else none

/-- A run of literal pattern characters under the `i` flag. -/
def litStr {β : Type} : JsString → (JsString → Option β) → JsString → Option β
  | [], k => k
  | p :: ps, k => litChar p (litStr ps k)

/-- The pattern `.`: one code unit that is not a line terminator. -/
def anyChar {β : Type} (k : JsString → Option β) : JsString → Option β
  | [] => none
  | c :: rest => if isLineTerminator c then none else k rest

/-- The capture `(.+?)`: lazy, so after each code unit taken the continuation
is tried first and one more code unit is taken only when it fails.  `acc` is
the text captured so far. -/
def lazyPlusAny {β : Type} (k : JsString → JsString → Option β) :
    JsString → JsString → Option β
  | _, [] => none
  | acc, c :: rest =>
    if isLineTerminator c then none
    else
      match k (acc ++ [c]) rest with
      | some r => some r
      | none => lazyPlusAny k (acc ++ [c]) rest

/-- The class `[\/#?]`. -/
def isTerminator (c : Nat) : Bool :=
  c == 47 || c == 35 || c == 63

/-- The group `(?:$|[\/#?])`: the end of the input (there is no `m` flag), or
one of `/`, `#`, `?`. -/
def endOrTerminator {β : Type} (k : JsString → Option β) : JsString → Option β
  | [] => k []
  | c :: rest =>
    if isTerminator c then k rest else none

/-- The parsed identifier `{ owner, repo }`. -/
structure RepoIdentifier where
  owner : JsString
  repo : JsString
  deriving DecidableEq, Repr

/-- The match array of the pattern: `match[1]` and `match[2]`. -/
structure RegexMatch where
  group1 : JsString
  group2 : JsString
  deriving DecidableEq, Repr

/-- The whole pattern matched at the start of `s`. -/
def matchHere (s : JsString) : Option RegexMatch :=
  litStr (js "github")
    (anyChar
      (litStr (js "com/")
        (lazyPlusAny
          (fun g1 =>
            litChar 47
              (lazyPlusAny
                (fun g2 => endOrTerminator (fun _ => some ⟨g1, g2⟩))
                []))
          [])))
    s

/-- The search of `String.prototype.match` without the `g` flag: the
leftmost start index at which the pattern matches. -/
def regexExec : JsString → Option RegexMatch
  | [] => matchHere []
  | c :: rest =>
    match matchHere (c :: rest) with
    | some r => some r
    | none => regexExec rest

/-- Function `parseRepoUrl(url)` for a string `url`: `none` is `null`.
(`url.match` does not throw on a string, so the `catch` is not reached.) -/
def parseRepoUrl (url : JsString) : Option RepoIdentifier :=
  match regexExec url with
  | none => none
  | some m => some ⟨m.group1, m.group2⟩

/-- The pattern `github.com\/` under the flag `i` matched at the start of `s`. -/
def hostMatchHere (s : JsString) : Bool :=
  (litStr (js "github") (anyChar (litStr (js "com/") (fun _ => some ()))) s).isSome

/-- Whether `s` contains a match of the pattern `github.com\/`. -/
def hostSearch : JsString → Bool
  | [] => false
  | c :: rest => hostMatchHere (c :: rest) || hostSearch rest

/-- A text the pattern `github.com\/` matches in full: `github`, one code unit
that is not a line terminator, `com/`, letters compared under the flag `i`. -/
def HostText (h : JsString) : Prop :=
  ∃ h1 d h2, h = h1 ++ d :: h2 ∧
    h1.map canonicalize = (js "github").map canonicalize ∧
    isLineTerminator d = false ∧
    h2.map canonicalize = (js "com/").map canonicalize

/-- The literal text `github.com/` in some letter case. -/
def LiteralHost (h : JsString) : Prop :=
  h.map canonicalize = (js "github.com/").map canonicalize

/-- The input holds a segment `github.com/<owner>/<repo>`: the literal text
`github.com/` in some letter case, a non-empty owner, a `/` and a non-empty
repo. -/
def HasRepoSegment (s : JsString) : Prop :=
  ∃ pre host owner repo rest,
    s = pre ++ host ++ owner ++ [47] ++ repo ++ rest ∧
      LiteralHost host ∧ owner ≠ [] ∧ repo ≠ []

/-- Whether the literal text `github.com/` occurs in `s` in some letter
case. -/
def literalHostSearch : JsString → Bool
  | [] => false
  | c :: rest =>
    (((c :: rest).take 11).map canonicalize == (js "github.com/").map canonicalize) ||
      literalHostSearch rest

/-! ## Page state -/

/-- A Chart.js instance: the `labels` and the dataset `data` it was built
with (the other options are constants), and whether `destroy()` was called.
An entry that is `undefined` in JavaScript is `none`. -/
structure Chart where
  labels : List (Option JsString)
  data : List (Option Int)
  destroyed : Bool
  deriving DecidableEq, Repr

/-- The mutable state the script works on. -/
structure Page where
  /-- Field `repoInfoDiv.innerHTML`. -/
  repoInfo : JsString
  /-- Field `contributorsDiv.innerHTML`. -/
  contributors : JsString
  /-- Field `commitActivityDiv.innerHTML`. -/
  commitActivity : JsString
  /-- Field `errorDiv.textContent`. -/
  errorText : JsString
  /-- Every chart instance constructed so far, in order of construction. -/
  charts : List Chart
  /-- The module variable `commitChartInstance`: `none` is `null`, `some i`
  refers to `charts[i]`. -/
  commitChartInstance : Option Nat
  deriving DecidableEq, Repr

/-- The state when the script has loaded (script.js 1-8). -/
def Page.initial : Page :=
  { repoInfo := [], contributors := [], commitActivity := [], errorText := [],
    charts := [], commitChartInstance := none }

/-- Method `destroy()` on the chart at index `i` of the heap. -/
def destroyAt : Nat → List Chart → List Chart
  | _, [] => []
  | 0, c :: cs => { c with destroyed := true } :: cs
  | i + 1, c :: cs => c :: destroyAt i cs

/-- Statement `if (commitChartInstance) commitChartInstance.destroy();`. -/
def Page.destroyInstance (p : Page) : Page :=
  match p.commitChartInstance with
  | none => p
  | some i => { p with charts := destroyAt i p.charts }

/-- Statement `commitChartInstance = new Chart(commitChartCanvas, ...)`. -/
def Page.newChart (p : Page) (labels : List (Option JsString))
    (data : List (Option Int)) : Page :=
  { p with
    charts := p.charts ++ [{ labels := labels, data := data, destroyed := false }],
    commitChartInstance := some p.charts.length }

/-- The number of chart instances created and not destroyed. -/
def Page.liveCharts (p : Page) : Nat :=
  (p.charts.filter (fun c => !c.destroyed)).length

/-- Function `resetUI()` (script.js 10-17). -/
def resetUI (p : Page) : Page :=
  Page.destroyInstance { p with repoInfo := [], contributors := [], errorText := [] }

/-- Function `showError(msg)` (script.js 35-37). -/
def showError (msg : JsString) (p : Page) : Page :=
  { p with errorText := msg }

/-! ## `renderRepoInfo` and `renderContributors` (script.js 39-63) -/

/-- A number of a response body that the script only interpolates into a
template literal.  It is given by the text the interpolation produces, the
result of `String(n)`: the decimal digits for a safe integer, rounded digits
above `2^53`, exponent notation from `1e21` on. -/
structure JsNumber where
  text : JsString
  deriving DecidableEq, Repr

/-- The constant `Number.MAX_SAFE_INTEGER`, `2^53 - 1`. -/
def maxSafeInteger : Int := 9007199254740991

/-- The number whose value is the safe integer `n`: its text is `n` in
decimal, with a leading `-` when negative. -/
def JsNumber.ofInt (n : Int) (_h : -maxSafeInteger ≤ n ∧ n ≤ maxSafeInteger) : JsNumber :=
  ⟨js (toString n)⟩

/-- The fields of the repository object the script reads. -/
structure RepoData where
  full_name : JsString
  /-- Field `description`, `none` for `null`. -/
  description : Option JsString
  stargazers_count : JsNumber
  forks_count : JsNumber
  watchers_count : JsNumber
  html_url : JsString
  deriving DecidableEq, Repr

/-- A number interpolated into a template literal. -/
def numberToString (n : JsNumber) : JsString := n.text

/-- Function `renderRepoInfo(data)`. -/
def renderRepoInfo (data : RepoData) (p : Page) : Page :=
  { p with
    repoInfo :=
      js "\n        <h2>" ++ data.full_name ++ js "</h2>\n        <p>" ++
      (match data.description with
        | some d => if d = [] then [] else d
        | none => []) ++
      js "</p>\n        <p>\n            ⭐ Stars: " ++ numberToString data.stargazers_count ++
      js " | 🍴 Forks: " ++ numberToString data.forks_count ++
      js " |     👁 Watchers: " ++ numberToString data.watchers_count ++
      js "\n        </p>\n        <p>🔗 <a href=\"" ++ data.html_url ++
      js "\" target=\"_blank\" style=\"color:#00ffe7;\">View on GitHub</a></p>\n    " }

/-- One element of the contributors array. -/
structure Contributor where
  login : JsString
  avatar_url : JsString
  html_url : JsString
  contributions : JsNumber
  deriving DecidableEq, Repr

/-- The template literal of one list item (script.js 57-62). -/
def contributorItem (c : Contributor) : JsString :=
  js "\n            <li style=\"margin:8px 0;\">\n                <img src=\"" ++
  c.avatar_url ++
  js "\" width=\"28\" height=\"28\" style=\"border-radius:50%;vertical-align:middle;margin-right:8px;\">\n                <a href=\"" ++
  c.html_url ++ js "\" target=\"_blank\" style=\"color:#00ffe7;\">" ++ c.login ++
  js "</a> (" ++ numberToString c.contributions ++
  js " commits)\n            </li>\n        "

/-- Function `renderContributors(list)` for an array `list`. -/
def renderContributors (list : List Contributor) (p : Page) : Page :=
  if list.length = 0 then
    { p with contributors := js "<p>No contributors found.</p>" }
  else
    { p with
      contributors :=
        js "<h3>Top Contributors</h3>" ++
        js "<ul style=\"list-style:none;padding:0;\">" ++
        ((list.take 10).map contributorItem).flatten ++ js "</ul>" }

/-! ## `renderCommitActivity` (script.js 65-135) -/

/-- One element of the commit-activity array: `days` is `none` when the
property is not an array. -/
structure Week where
  days : Option (List Int)
  deriving DecidableEq, Repr

/-- A thrown value, as far as the handlers look at it: `err.status`, `none`
when the value has no such property (a `TypeError`, a `SyntaxError`). -/
structure JsError where
  status : Option Nat
  deriving DecidableEq, Repr

/-- An element of `allDays` or `last7`; the elements pushed at lines 95-98
carry no `weekIndex`. -/
structure DayEntry where
  count : Option Int
  weekIndex : Option Nat
  dayIndex : Nat
  deriving DecidableEq, Repr

/-- The inner loop of lines 76-85 for the week at index `w`; an element of
the array that is `null` is `none`. -/
def pushWeek (w : Nat) : Option Week → List DayEntry
  | some ⟨some days⟩ =>
    [6, 5, 4, 3, 2, 1, 0].map (fun d => ⟨days[d]?, some w, d⟩)
  | _ => []

/-- The outer loop of lines 74-86 with `w + 1` iterations left, `w` being the
index it handles next. -/
def flattenLoop (weeks : List (Option Week)) : Nat → List DayEntry → List DayEntry
  | 0, allDays => allDays
  | w + 1, allDays => flattenLoop weeks w (allDays ++ pushWeek w (weeks.getD w none))

/-- The array `allDays` after the loop: all days, most recent first. -/
def allDays (weeks : List (Option Week)) : List DayEntry :=
  flattenLoop weeks weeks.length []

/-- The constant `dayLabels`. -/
def dayLabels : List JsString :=
  [js "Sun", js "Mon", js "Tue", js "Wed", js "Thu", js "Fri", js "Sat"]

/-- The test `day.count > 0`; it is false for `undefined`. -/
def DayEntry.positive (day : DayEntry) : Bool :=
  match day.count with
  | some c => decide (0 < c)
  | none => false

/-- Lines 108-134: build the chart from `last7`. -/
def buildChart (last7 : List DayEntry) (p : Page) : Page :=
  let labels := last7.map (fun day => dayLabels[day.dayIndex]?)
  let data := last7.map (fun day => day.count)
  Page.newChart (Page.destroyInstance p) labels data

/-- Function `renderCommitActivity(weeks)` for an array `weeks`; the result is
an error when the call throws (line 91 on a last element that is `null` or
whose `days` is not an array). -/
def renderCommitActivity (weeks : List (Option Week)) (p : Page) : Except JsError Page :=
  if weeks.length = 0 then
    .ok { p with commitActivity := js "<p>No commit activity data.</p>" }
  else
    match weeks.getLast? with
    | some (some ⟨some lastDays⟩) =>
      let lastWeekSum := lastDays.foldl (fun a b => a + b) 0
      if 0 < lastWeekSum then
        .ok (buildChart
          ((List.range 7).map (fun d => ⟨lastDays[d]?, none, d⟩)) p)
      else
        let last7 := (((allDays weeks).filter DayEntry.positive).take 7).reverse
        if last7.length = 0 then
          .ok { p with commitActivity := js "<p>No commit data found.</p>" }
        else
          .ok (buildChart last7 p)
    | _ => .error ⟨none⟩

/-! ## `fetchGitHub` and the submit handler (script.js 29-33, 138-180) -/

/-- What `fetch` settles to: a rejection, or a response with its status and
its body as `res.json()` decodes it (`none` when `res.json()` rejects). -/
inductive Response (α : Type) where
  | networkError : Response α
  | http (status : Nat) (body : Option α) : Response α

/-- Property `res.ok`: the status is in the range 200-299. -/
def statusOk (status : Nat) : Bool :=
  decide (200 ≤ status) && decide (status ≤ 299)

/-- Function `fetchGitHub(endpoint)`, given what `fetch` settles to.  The
rejection of `fetch` and of `res.json()` is an error without `status`; a
response that is not `ok` is thrown itself, so `err.status` is its status. -/
def fetchGitHub {α : Type} : Response α → Except JsError α
  | .networkError => .error ⟨none⟩
  | .http status body =>
    if !statusOk status then .error ⟨some status⟩
    else
      match body with
      | none => .error ⟨none⟩
      | some v => .ok v

/-- A decoded body where the script expects an array: an array, or a value
without a `length` property such as the object `{}`. -/
inductive Payload (α : Type) where
  | items (xs : List α) : Payload α
  | nonArray : Payload α

/-- The GitHub API as the handler sees it: the response to each endpoint. -/
structure Network where
  repo : JsString → Response RepoData
  contributors : JsString → Response (Payload Contributor)
  commitActivity : JsString → Response (Payload (Option Week))

/-- The page together with the endpoints requested so far, oldest first. -/
structure World where
  page : Page
  requests : List JsString

/-- Record a call of `fetch` on `endpoint`. -/
def World.request (w : World) (endpoint : JsString) : World :=
  { w with requests := w.requests ++ [endpoint] }

/-- Apply a page update. -/
def World.onPage (w : World) (f : Page → Page) : World :=
  { w with page := f w.page }

/-- White space and line terminators, the code units `trim` strips. -/
def isTrimmed (c : Nat) : Bool :=
  c == 9 || c == 10 || c == 11 || c == 12 || c == 13 || c == 32 || c == 160 ||
  c == 5760 || (decide (8192 ≤ c) && decide (c ≤ 8202)) || c == 8232 || c == 8233 ||
  c == 8239 || c == 8287 || c == 12288 || c == 65279

/-- Method `String.prototype.trim`. -/
def trim (s : JsString) : JsString :=
  ((s.dropWhile isTrimmed).reverse.dropWhile isTrimmed).reverse

/-- Function `renderContributors(list)` on a decoded body: `!list.length` is
true for a value without `length`. -/
def renderContributorsPayload : Payload Contributor → Page → Page
  | .items xs => renderContributors xs
  | .nonArray => fun p => { p with contributors := js "<p>No contributors found.</p>" }

/-- The message shown for status 202 of the commit-activity request. -/
def pendingMessage : JsString :=
  js "Commit activity is being generated by GitHub. Please try again in a few seconds."

/-- The body of the outer `try` (lines 148-170): the world it leaves and the
value thrown out of it, if any. -/
def submitTry (net : Network) (parsed : RepoIdentifier) (w : World) :
    World × Option JsError :=
  let base := js "/repos/" ++ parsed.owner ++ js "/" ++ parsed.repo
  let w := w.request base
  match fetchGitHub (net.repo base) with
  | .error err => (w, some err)
  | .ok repoData =>
    let w := w.onPage (renderRepoInfo repoData)
    let w := w.request (base ++ js "/contributors?per_page=10")
    let contributors :=
      match fetchGitHub (net.contributors (base ++ js "/contributors?per_page=10")) with
      | .ok v => v
      | .error _ => .items []
    let w := w.onPage (renderContributorsPayload contributors)
    let w := w.request (base ++ js "/stats/commit_activity")
    let fetched :=
      match fetchGitHub (net.commitActivity (base ++ js "/stats/commit_activity")) with
      | .ok v => (v, w)
      | .error err =>
        if err.status = some 202 then
          (Payload.items [], w.onPage (showError pendingMessage))
        else
          (Payload.items [], w.onPage (showError (js "Could not fetch commit activity.")))
    match fetched with
    | (.items (x :: xs), w) =>
      match renderCommitActivity (x :: xs) w.page with
      | .ok p => ({ w with page := p }, none)
      | .error err => (w, some err)
    | (_, w) => (w, none)

/-- The message of the outer `catch` (lines 171-179). -/
def fatalMessage (err : JsError) : JsString :=
  if err.status = some 404 then js "Repository not found."
  else if err.status = some 403 then js "API rate limit exceeded. Please try again later."
  else js "Failed to fetch data from GitHub."

/-- The submit handler (lines 138-180) run to completion on the text `value`
of the input field. -/
def submit (net : Network) (value : JsString) (w : World) : World :=
  let w := w.onPage resetUI
  let repoUrl := trim value
  match parseRepoUrl repoUrl with
  | none => w.onPage (showError (js "Invalid GitHub repo URL."))
  | some parsed =>
    match submitTry net parsed w with
    | (w, none) => w
    | (w, some err) => w.onPage (showError (fatalMessage err))

/-! ## Sequences of calls -/

/-- A call of one of the two functions that touch the chart. -/
inductive Call where
  | resetUI : Call
  | renderCommitActivity (weeks : List (Option Week)) : Call

/-- One call; a call that throws leaves the state as it is (the throw of
`renderCommitActivity` precedes every assignment). -/
def Call.run (p : Page) : Call → Page
  | .resetUI => RepoAnalyzer.resetUI p
  | .renderCommitActivity weeks =>
    match RepoAnalyzer.renderCommitActivity weeks p with
    | .ok q => q
    | .error _ => p

/-- A finite sequence of calls, first call first. -/
def runCalls (p : Page) (calls : List Call) : Page :=
  calls.foldl Call.run p

/-! ## Notions used to state the properties -/

/-- The chart `commitChartInstance` refers to. -/
def Page.currentChart (p : Page) : Option Chart :=
  match p.commitChartInstance with
  | none => none
  | some i => p.charts[i]?

/-- The day counts of a week, empty when there are none. -/
def weekDays : Option Week → List Int
  | some ⟨some days⟩ => days
  | _ => []

/-- A week whose `days` is an array of 7 non-negative integers. -/
def wellFormedWeek : Option Week → Prop
  | some ⟨some days⟩ => days.length = 7 ∧ ∀ x ∈ days, 0 ≤ x
  | _ => False

instance : DecidablePred wellFormedWeek
  | some ⟨some days⟩ => inferInstanceAs (Decidable (days.length = 7 ∧ ∀ x ∈ days, 0 ≤ x))
  | some ⟨none⟩ => isFalse (fun h => h)
  | none => isFalse (fun h => h)

/-- All days in chronological order, oldest week first and day index 0..6
inside a week, each as the pair of its index inside its week and its count. -/
def chronologicalDays (weeks : List (Option Week)) : List (Nat × Int) :=
  weeks.flatMap (fun w => (weekDays w).enum)

/-- The most recent positive-count days in chronological order: the last
`min 7 k` of the `k` days with a positive count. -/
def recentPositiveDays (weeks : List (Option Week)) : List (Nat × Int) :=
  let positive := (chronologicalDays weeks).filter (fun e => decide (0 < e.2))
  positive.drop (positive.length - min 7 positive.length)

/-- The invariant of the chart heap: once the instance the variable refers to
is destroyed, no chart is live. -/
def ChartInv (p : Page) : Prop :=
  p.destroyInstance.liveCharts = 0

/-- What the chart reads of an element of `last7`. -/
def DayEntry.key (e : DayEntry) : Nat × Option Int := (e.dayIndex, e.count)

/-- A chronological day as the chart reads it. -/
def dayKey (e : Nat × Int) : Nat × Option Int := (e.1, some e.2)

/-- The continuation of the pattern after `github.com\/`. -/
def afterHost : JsString → Option RegexMatch :=
  lazyPlusAny
    (fun g1 =>
      litChar 47
        (lazyPlusAny (fun g2 => endOrTerminator (fun _ => some ⟨g1, g2⟩)) []))
    []

/-! ## Chart instances -/

theorem liveCount_destroyAt_le (i : Nat) (cs : List Chart) :
    (cs.filter (fun c => !c.destroyed)).length ≤
      ((destroyAt i cs).filter (fun c => !c.destroyed)).length + 1 := by
  induction cs generalizing i with
  | nil => simp [destroyAt]
  | cons c cs ih =>
    cases i with
    | zero =>
      cases hc : c.destroyed <;> simp [destroyAt, List.filter_cons, hc]
    | succ i =>
      have := ih i
      cases hc : c.destroyed <;> simp [destroyAt, List.filter_cons, hc] <;> omega

theorem destroyAt_destroyAt (i : Nat) (cs : List Chart) :
    destroyAt i (destroyAt i cs) = destroyAt i cs := by
  induction cs generalizing i with
  | nil => simp [destroyAt]
  | cons c cs ih =>
    cases i with
    | zero => simp [destroyAt]
    | succ i => simp [destroyAt, ih]

theorem destroyAt_length_append (cs : List Chart) (c : Chart) :
    destroyAt cs.length (cs ++ [c]) = cs ++ [{ c with destroyed := true }] := by
  induction cs with
  | nil => simp [destroyAt]
  | cons d ds ih => simp [destroyAt, ih]

theorem destroyInstance_idem (p : Page) :
    p.destroyInstance.destroyInstance = p.destroyInstance := by
  unfold Page.destroyInstance
  cases h : p.commitChartInstance with
  | none => simp [h]
  | some i => simp [h, destroyAt_destroyAt]

theorem chartInv_initial : ChartInv Page.initial := by
  simp [ChartInv, Page.destroyInstance, Page.initial, Page.liveCharts]

theorem destroyInstance_liveCharts (p : Page) :
    p.destroyInstance.liveCharts =
      match p.commitChartInstance with
      | none => (p.charts.filter (fun c => !c.destroyed)).length
      | some i => ((destroyAt i p.charts).filter (fun c => !c.destroyed)).length := by
  unfold Page.destroyInstance Page.liveCharts
  cases p.commitChartInstance <;> rfl

theorem chartInv_congr (p q : Page) (hc : q.charts = p.charts)
    (hi : q.commitChartInstance = p.commitChartInstance) (h : ChartInv p) : ChartInv q := by
  unfold ChartInv at *
  rw [destroyInstance_liveCharts] at *
  rw [hc, hi]
  exact h

theorem chartInv_resetUI (p : Page) (h : ChartInv p) : ChartInv (resetUI p) := by
  unfold resetUI
  unfold ChartInv
  rw [destroyInstance_idem]
  exact chartInv_congr p _ rfl rfl h

theorem chartInv_buildChart (last7 : List DayEntry) (p : Page) (h : ChartInv p) :
    ChartInv (buildChart last7 p) := by
  unfold ChartInv at *
  rw [destroyInstance_liveCharts] at *
  unfold buildChart Page.newChart Page.destroyInstance
  cases hi : p.commitChartInstance with
  | none =>
    simp only [hi] at h ⊢
    rw [destroyAt_length_append]
    simpa [List.filter_append] using h
  | some i =>
    simp only [hi] at h ⊢
    rw [destroyAt_length_append]
    simpa [List.filter_append] using h

theorem chartInv_renderCommitActivity (weeks : List (Option Week)) (p q : Page)
    (h : ChartInv p) (hq : renderCommitActivity weeks p = .ok q) : ChartInv q := by
  unfold renderCommitActivity at hq
  split at hq
  · cases hq; exact chartInv_congr p _ rfl rfl h
  · split at hq
    · simp only at hq
      split at hq
      · cases hq; exact chartInv_buildChart _ _ h
      · split at hq
        · cases hq; exact chartInv_congr p _ rfl rfl h
        · cases hq; exact chartInv_buildChart _ _ h
    · cases hq

theorem chartInv_run (p : Page) (c : Call) (h : ChartInv p) : ChartInv (c.run p) := by
  cases c with
  | resetUI => exact chartInv_resetUI p h
  | renderCommitActivity weeks =>
    show ChartInv (match RepoAnalyzer.renderCommitActivity weeks p with
      | .ok q => q
      | .error _ => p)
    cases hq : RepoAnalyzer.renderCommitActivity weeks p with
    | ok q => exact chartInv_renderCommitActivity weeks p q h hq
    | error e => exact h

theorem chartInv_runCalls (calls : List Call) (p : Page) (h : ChartInv p) :
    ChartInv (runCalls p calls) := by
  induction calls generalizing p with
  | nil => exact h
  | cons c cs ih => exact ih (c.run p) (chartInv_run p c h)

theorem liveCharts_le_one_of_inv (p : Page) (h : ChartInv p) : p.liveCharts ≤ 1 := by
  unfold ChartInv Page.destroyInstance at h
  unfold Page.liveCharts at *
  cases hi : p.commitChartInstance with
  | none => simp only [hi] at h; omega
  | some i =>
    simp only [hi] at h
    have := liveCount_destroyAt_le i p.charts
    omega

/-- C9: starting from the initial state, after every finite sequence of
`resetUI` and `renderCommitActivity` calls at most one chart instance is live;
a chart build destroys the instance held in `commitChartInstance` before it
creates the new one, and destroying a destroyed instance changes nothing. -/
theorem at_most_one_live_chart (calls : List Call) :
    (runCalls Page.initial calls).liveCharts ≤ 1 ∧
    (∀ (last7 : List DayEntry) (p : Page),
      (buildChart last7 p).charts =
        p.destroyInstance.charts ++
          [⟨last7.map (fun day => dayLabels[day.dayIndex]?),
            last7.map (fun day => day.count), false⟩]) ∧
    (∀ p : Page, p.destroyInstance.destroyInstance = p.destroyInstance) :=
  ⟨liveCharts_le_one_of_inv _ (chartInv_runCalls calls _ chartInv_initial),
    fun _ _ => rfl, destroyInstance_idem⟩

/-! ## The commit-activity series -/

theorem pushWeek_key (w : Nat) (week : Option Week) (h : wellFormedWeek week) :
    (pushWeek w week).map DayEntry.key = (((weekDays week).enum).map dayKey).reverse := by
  match week, h with
  | some ⟨some days⟩, h =>
    obtain ⟨hlen, -⟩ := h
    match days, hlen with
    | [a, b, c, d, e, f, g], _ => rfl

theorem flattenLoop_key (weeks : List (Option Week)) (hwf : ∀ w ∈ weeks, wellFormedWeek w)
    (n : Nat) (hn : n ≤ weeks.length) (acc : List DayEntry) :
    (flattenLoop weeks n acc).map DayEntry.key =
      acc.map DayEntry.key ++ (((chronologicalDays (weeks.take n))).map dayKey).reverse := by
  induction n generalizing acc with
  | zero => simp [flattenLoop, chronologicalDays]
  | succ n ih =>
    have hlt : n < weeks.length := hn
    have hmem : weeks[n] ∈ weeks := List.getElem_mem hlt
    have hget : weeks.getD n none = weeks[n] := by
      simp [List.getD_eq_getElem?_getD, List.getElem?_eq_getElem hlt]
    rw [flattenLoop, ih (by omega), hget, List.take_succ, List.getElem?_eq_getElem hlt]
    simp only [List.map_append, pushWeek_key n _ (hwf _ hmem), chronologicalDays,
      List.flatMap_append, Option.toList, List.flatMap_cons, List.flatMap_nil, List.append_nil,
      List.reverse_append, List.append_assoc]

theorem allDays_key (weeks : List (Option Week)) (hwf : ∀ w ∈ weeks, wellFormedWeek w) :
    (allDays weeks).map DayEntry.key = ((chronologicalDays weeks).map dayKey).reverse := by
  have := flattenLoop_key weeks hwf weeks.length (Nat.le_refl _) []
  simpa [allDays] using this

theorem positive_eq_key (e : DayEntry) :
    e.positive = (match e.key.2 with | some c => decide (0 < c) | none => false) := rfl

/-- The array `last7` of line 102, as the chart reads it, is the list of the
most recent positive-count days in chronological order. -/
theorem last7_key (weeks : List (Option Week)) (hwf : ∀ w ∈ weeks, wellFormedWeek w) :
    ((((allDays weeks).filter DayEntry.positive).take 7).reverse).map DayEntry.key =
      (recentPositiveDays weeks).map dayKey := by
  have hfun : DayEntry.positive =
      (fun k : Nat × Option Int => match k.2 with | some c => decide (0 < c) | none => false)
        ∘ DayEntry.key := by
    funext e; rfl
  have hfun2 : ((fun k : Nat × Option Int =>
      match k.2 with | some c => decide (0 < c) | none => false) ∘ dayKey) =
      (fun e : Nat × Int => decide (0 < e.2)) := by
    funext e; rfl
  rw [List.map_reverse, List.map_take, hfun, ← List.filter_map, allDays_key weeks hwf,
    List.filter_reverse, List.take_reverse, List.reverse_reverse, List.filter_map, hfun2,
    List.length_map, ← List.map_drop]
  unfold recentPositiveDays
  simp only
  congr 2
  omega

theorem currentChart_newChart (p : Page) (labels : List (Option JsString))
    (data : List (Option Int)) :
    (Page.newChart p labels data).currentChart = some ⟨labels, data, false⟩ := by
  simp [Page.currentChart, Page.newChart]

theorem length_ne_zero_of_ne_nil (weeks : List (Option Week)) (hne : weeks ≠ []) :
    ¬ weeks.length = 0 := by
  intro h
  exact hne (List.length_eq_zero.mp h)

/-- C1: for a non-empty sequence of weeks of 7 non-negative day counts whose
last week sums to more than 0, the call succeeds and the chart it builds has
the 7 day counts of the last week, in index order, as values and
Sun, Mon, Tue, Wed, Thu, Fri, Sat as labels, whatever the earlier weeks hold. -/
theorem renderCommitActivity_last_week_active (weeks : List (Option Week)) (p : Page)
    (hne : weeks ≠ []) (hwf : ∀ w ∈ weeks, wellFormedWeek w)
    (hsum : 0 < (weekDays (weeks.getLast hne)).sum) :
    ∃ q, renderCommitActivity weeks p = .ok q ∧
      q = Page.newChart p.destroyInstance
        [some (js "Sun"), some (js "Mon"), some (js "Tue"), some (js "Wed"),
          some (js "Thu"), some (js "Fri"), some (js "Sat")]
        ((weekDays (weeks.getLast hne)).map some) ∧
      q.currentChart = some
        ⟨[some (js "Sun"), some (js "Mon"), some (js "Tue"), some (js "Wed"),
          some (js "Thu"), some (js "Fri"), some (js "Sat")],
          (weekDays (weeks.getLast hne)).map some, false⟩ := by
  have hlast := List.getLast?_eq_getLast weeks hne
  have hwfl := hwf _ (List.getLast_mem hne)
  have hlen0 := length_ne_zero_of_ne_nil weeks hne
  generalize weeks.getLast hne = lw at hlast hwfl hsum ⊢
  match lw, hwfl with
  | some ⟨some days⟩, ⟨hlen, _⟩ =>
    match days, hlen with
    | [a, b, c, d, e, f, g], _ =>
      have hpos : (0 : Int) < 0 + a + b + c + d + e + f + g := by
        simp [weekDays] at hsum
        omega
      refine ⟨_, ?_, rfl, currentChart_newChart _ _ _⟩
      unfold renderCommitActivity
      simp only [hlen0, if_false, hlast, List.foldl, hpos, if_true]
      rfl

/-- C2: for a non-empty sequence of weeks of 7 non-negative day counts whose
last week sums to 0 and which holds a positive day count, the call succeeds
and the chart it builds shows exactly the most recent positive-count days in
chronological order (the last `min 7 k` of the `k` positive days of the
flattened sequence), each labelled with the weekday of its index inside its
own week. -/
theorem renderCommitActivity_recent_positive (weeks : List (Option Week)) (p : Page)
    (hne : weeks ≠ []) (hwf : ∀ w ∈ weeks, wellFormedWeek w)
    (hsum : (weekDays (weeks.getLast hne)).sum = 0)
    (hpos : ∃ w ∈ weeks, ∃ x ∈ weekDays w, 0 < x) :
    ∃ q, renderCommitActivity weeks p = .ok q ∧
      q = Page.newChart p.destroyInstance
        ((recentPositiveDays weeks).map (fun e => dayLabels[e.1]?))
        ((recentPositiveDays weeks).map (fun e => some e.2)) ∧
      q.currentChart = some
        ⟨(recentPositiveDays weeks).map (fun e => dayLabels[e.1]?),
          (recentPositiveDays weeks).map (fun e => some e.2), false⟩ := by
  have hlast := List.getLast?_eq_getLast weeks hne
  have hwfl := hwf _ (List.getLast_mem hne)
  have hlen0 := length_ne_zero_of_ne_nil weeks hne
  have hkey := last7_key weeks hwf
  have hrecent : recentPositiveDays weeks ≠ [] := by
    obtain ⟨w, hw, x, hx, hx0⟩ := hpos
    have hmem : ∃ i, (i, x) ∈ chronologicalDays weeks := by
      obtain ⟨i, hi, rfl⟩ := List.getElem_of_mem hx
      refine ⟨i, ?_⟩
      unfold chronologicalDays
      rw [List.mem_flatMap]
      exact ⟨w, hw, by simp [List.mk_mem_enum_iff_getElem?, List.getElem?_eq_getElem hi]⟩
    obtain ⟨i, hi⟩ := hmem
    have hfil : (i, x) ∈ (chronologicalDays weeks).filter (fun e => decide (0 < e.2)) := by
      simp [List.mem_filter, hi, hx0]
    unfold recentPositiveDays
    simp only
    intro hnil
    have hlen := congrArg List.length hnil
    have hposlen := List.length_pos_of_mem hfil
    simp only [List.length_drop, List.length_nil] at hlen
    omega
  generalize weeks.getLast hne = lw at hlast hwfl hsum
  match lw, hwfl with
  | some ⟨some days⟩, ⟨hlen, _⟩ =>
    match days, hlen with
    | [a, b, c, d, e, f, g], _ =>
      have hnpos : ¬ (0 : Int) < 0 + a + b + c + d + e + f + g := by
        simp [weekDays] at hsum
        omega
      have hl7 : ¬ ((((allDays weeks).filter DayEntry.positive).take 7).reverse).length = 0 := by
        intro h0
        have := congrArg List.length hkey
        rw [List.length_map, List.length_map, h0] at this
        exact hrecent (List.length_eq_zero.mp this.symm)
      have hlabels :
          ((((allDays weeks).filter DayEntry.positive).take 7).reverse).map
            (fun day => dayLabels[day.dayIndex]?) =
          (recentPositiveDays weeks).map (fun e => dayLabels[e.1]?) := by
        have := congrArg (List.map (fun k : Nat × Option Int => dayLabels[k.1]?)) hkey
        simpa [List.map_map, Function.comp_def, DayEntry.key, dayKey] using this
      have hdata :
          ((((allDays weeks).filter DayEntry.positive).take 7).reverse).map
            (fun day => day.count) =
          (recentPositiveDays weeks).map (fun e => some e.2) := by
        have := congrArg (List.map (fun k : Nat × Option Int => k.2)) hkey
        simpa [List.map_map, Function.comp_def, DayEntry.key, dayKey] using this
      refine ⟨_, ?_, rfl, currentChart_newChart _ _ _⟩
      unfold renderCommitActivity
      simp only [hlen0, if_false, hlast, List.foldl, hnpos, hl7]
      unfold buildChart
      simp only [hlabels, hdata]

/-- C3: for a non-empty sequence of weeks of 7 non-negative day counts whose
last week sums to 0 and in which no day has a positive count, the call sets
the commit-activity region to the placeholder for no commit data and builds no
chart: the chart heap and `commitChartInstance` are left as they were. -/
theorem renderCommitActivity_no_data (weeks : List (Option Week)) (p : Page)
    (hne : weeks ≠ []) (hwf : ∀ w ∈ weeks, wellFormedWeek w)
    (hsum : (weekDays (weeks.getLast hne)).sum = 0)
    (hnone : ∀ w ∈ weeks, ∀ x ∈ weekDays w, ¬ 0 < x) :
    ∃ q, renderCommitActivity weeks p = .ok q ∧
      q = { p with commitActivity := js "<p>No commit data found.</p>" } ∧
      q.charts = p.charts ∧ q.commitChartInstance = p.commitChartInstance := by
  have hlast := List.getLast?_eq_getLast weeks hne
  have hwfl := hwf _ (List.getLast_mem hne)
  have hlen0 := length_ne_zero_of_ne_nil weeks hne
  have hkey := last7_key weeks hwf
  have hrecent : recentPositiveDays weeks = [] := by
    have hfil : (chronologicalDays weeks).filter (fun e => decide (0 < e.2)) = [] := by
      rw [List.filter_eq_nil_iff]
      intro e he
      unfold chronologicalDays at he
      rw [List.mem_flatMap] at he
      obtain ⟨w, hw, hew⟩ := he
      have hx : e.2 ∈ weekDays w := by
        obtain ⟨i, x⟩ := e
        rw [List.mk_mem_enum_iff_getElem?] at hew
        exact List.getElem?_mem hew
      simpa using hnone w hw e.2 hx
    unfold recentPositiveDays
    simp [hfil]
  generalize weeks.getLast hne = lw at hlast hwfl hsum
  match lw, hwfl with
  | some ⟨some days⟩, ⟨hlen, _⟩ =>
    match days, hlen with
    | [a, b, c, d, e, f, g], _ =>
      have hnpos : ¬ (0 : Int) < 0 + a + b + c + d + e + f + g := by
        simp [weekDays] at hsum
        omega
      have hl7 : ((((allDays weeks).filter DayEntry.positive).take 7).reverse).length = 0 := by
        have := congrArg List.length hkey
        rw [List.length_map, hrecent] at this
        simpa using this
      refine ⟨_, ?_, rfl, rfl, rfl⟩
      unfold renderCommitActivity
      simp only [hlen0, if_false, hlast, List.foldl, hnpos, hl7, if_true]

theorem renderCommitActivity_last_week_active_witness :
    ([some ⟨some [9, 9, 9, 9, 9, 9, 9]⟩, some ⟨some [0, 2, 0, 1, 0, 3, 0]⟩] :
        List (Option Week)) ≠ [] ∧
    (∀ w ∈ ([some ⟨some [9, 9, 9, 9, 9, 9, 9]⟩, some ⟨some [0, 2, 0, 1, 0, 3, 0]⟩] :
        List (Option Week)), wellFormedWeek w) ∧
    0 < (weekDays (some ⟨some [0, 2, 0, 1, 0, 3, 0]⟩)).sum ∧
    ∃ q, renderCommitActivity
        [some ⟨some [9, 9, 9, 9, 9, 9, 9]⟩, some ⟨some [0, 2, 0, 1, 0, 3, 0]⟩]
        Page.initial = .ok q ∧
      q = Page.newChart Page.initial.destroyInstance
        [some (js "Sun"), some (js "Mon"), some (js "Tue"), some (js "Wed"),
          some (js "Thu"), some (js "Fri"), some (js "Sat")]
        [some 0, some 2, some 0, some 1, some 0, some 3, some 0] ∧
      q.currentChart = some
        ⟨[some (js "Sun"), some (js "Mon"), some (js "Tue"), some (js "Wed"),
          some (js "Thu"), some (js "Fri"), some (js "Sat")],
          [some 0, some 2, some 0, some 1, some 0, some 3, some 0], false⟩ :=
  ⟨by decide, by decide, by decide,
    renderCommitActivity_last_week_active
      [some ⟨some [9, 9, 9, 9, 9, 9, 9]⟩, some ⟨some [0, 2, 0, 1, 0, 3, 0]⟩]
      Page.initial (by decide) (by decide) (by decide)⟩

theorem renderCommitActivity_recent_positive_witness :
    ([some ⟨some [1, 0, 2, 0, 0, 0, 0]⟩, some ⟨some [0, 0, 0, 0, 0, 0, 0]⟩] :
        List (Option Week)) ≠ [] ∧
    (∀ w ∈ ([some ⟨some [1, 0, 2, 0, 0, 0, 0]⟩, some ⟨some [0, 0, 0, 0, 0, 0, 0]⟩] :
        List (Option Week)), wellFormedWeek w) ∧
    (weekDays (some ⟨some [0, 0, 0, 0, 0, 0, 0]⟩)).sum = 0 ∧
    (∃ w ∈ ([some ⟨some [1, 0, 2, 0, 0, 0, 0]⟩, some ⟨some [0, 0, 0, 0, 0, 0, 0]⟩] :
        List (Option Week)), ∃ x ∈ weekDays w, 0 < x) ∧
    ∃ q, renderCommitActivity
        [some ⟨some [1, 0, 2, 0, 0, 0, 0]⟩, some ⟨some [0, 0, 0, 0, 0, 0, 0]⟩]
        Page.initial = .ok q ∧
      q = Page.newChart Page.initial.destroyInstance
        [some (js "Sun"), some (js "Tue")] [some 1, some 2] ∧
      q.currentChart = some ⟨[some (js "Sun"), some (js "Tue")], [some 1, some 2], false⟩ :=
  ⟨by decide, by decide, by decide, by decide,
    renderCommitActivity_recent_positive
      [some ⟨some [1, 0, 2, 0, 0, 0, 0]⟩, some ⟨some [0, 0, 0, 0, 0, 0, 0]⟩]
      Page.initial (by decide) (by decide) (by decide) (by decide)⟩

theorem renderCommitActivity_no_data_witness :
    ([some ⟨some [0, 0, 0, 0, 0, 0, 0]⟩, some ⟨some [0, 0, 0, 0, 0, 0, 0]⟩] :
        List (Option Week)) ≠ [] ∧
    (∀ w ∈ ([some ⟨some [0, 0, 0, 0, 0, 0, 0]⟩, some ⟨some [0, 0, 0, 0, 0, 0, 0]⟩] :
        List (Option Week)), wellFormedWeek w) ∧
    (weekDays (some ⟨some [0, 0, 0, 0, 0, 0, 0]⟩)).sum = 0 ∧
    (∀ w ∈ ([some ⟨some [0, 0, 0, 0, 0, 0, 0]⟩, some ⟨some [0, 0, 0, 0, 0, 0, 0]⟩] :
        List (Option Week)), ∀ x ∈ weekDays w, ¬ 0 < x) ∧
    ∃ q, renderCommitActivity
        [some ⟨some [0, 0, 0, 0, 0, 0, 0]⟩, some ⟨some [0, 0, 0, 0, 0, 0, 0]⟩]
        (Page.newChart Page.initial [] []) = .ok q ∧
      q = { Page.newChart Page.initial [] [] with
            commitActivity := js "<p>No commit data found.</p>" } ∧
      q.charts = [⟨[], [], false⟩] ∧ q.commitChartInstance = some 0 :=
  ⟨by decide, by decide, by decide, by decide,
    renderCommitActivity_no_data
      [some ⟨some [0, 0, 0, 0, 0, 0, 0]⟩, some ⟨some [0, 0, 0, 0, 0, 0, 0]⟩]
      (Page.newChart Page.initial [] []) (by decide) (by decide) (by decide) (by decide)⟩

/-! ## Contributors -/

set_option maxRecDepth 20000 in
/-- C10: `renderContributors` renders the placeholder for an empty list, and
for a list of `n > 0` entries the header followed by one item for each of the
first `min 10 n` entries, in the order received, each item being the template
filled with the entry's `avatar_url`, `html_url`, `login` and the text of its
`contributions` (the decimal digits when the count is a safe integer); the
region's previous content is replaced and nothing else changes. -/
theorem renderContributors_spec (p : Page) :
    renderContributors [] p = { p with contributors := js "<p>No contributors found.</p>" } ∧
    (∀ (c : Contributor) (cs : List Contributor),
      renderContributors (c :: cs) p =
        { p with
          contributors :=
            js "<h3>Top Contributors</h3><ul style=\"list-style:none;padding:0;\">" ++
              (((c :: cs).take (min 10 (cs.length + 1))).map
                (fun e =>
                  js "\n            <li style=\"margin:8px 0;\">\n                <img src=\"" ++
                  e.avatar_url ++
                  js "\" width=\"28\" height=\"28\" style=\"border-radius:50%;vertical-align:middle;margin-right:8px;\">\n                <a href=\"" ++
                  e.html_url ++ js "\" target=\"_blank\" style=\"color:#00ffe7;\">" ++ e.login ++
                  js "</a> (" ++ e.contributions.text ++
                  js " commits)\n            </li>\n        ")).flatten ++
              js "</ul>" } ∧
      (((c :: cs).take (min 10 (cs.length + 1))).length = min 10 (cs.length + 1)) ∧
      ∀ i, i < min 10 (cs.length + 1) →
        ((c :: cs).take (min 10 (cs.length + 1)))[i]? = (c :: cs)[i]?) ∧
    (∀ (n : Int) (h : -maxSafeInteger ≤ n ∧ n ≤ maxSafeInteger),
      (JsNumber.ofInt n h).text = js (toString n)) ∧
    (renderContributors
      [⟨js "octocat", js "https://a.png", js "https://github.com/octocat",
        JsNumber.ofInt 42 (by decide)⟩] p).contributors =
      js "<h3>Top Contributors</h3><ul style=\"list-style:none;padding:0;\">\n            <li style=\"margin:8px 0;\">\n                <img src=\"https://a.png\" width=\"28\" height=\"28\" style=\"border-radius:50%;vertical-align:middle;margin-right:8px;\">\n                <a href=\"https://github.com/octocat\" target=\"_blank\" style=\"color:#00ffe7;\">octocat</a> (42 commits)\n            </li>\n        </ul>" := by
  refine ⟨rfl, fun c cs => ⟨?_, ?_, ?_⟩, fun _ _ => rfl, rfl⟩
  · have htake : (c :: cs).take (min 10 (cs.length + 1)) = (c :: cs).take 10 := by
      rcases Nat.le_total 10 (cs.length + 1) with h | h
      · rw [Nat.min_eq_left h]
      · rw [Nat.min_eq_right h,
          List.take_of_length_le (show (c :: cs).length ≤ cs.length + 1 from Nat.le_refl _),
          List.take_of_length_le (show (c :: cs).length ≤ 10 from h)]
    rw [htake]
    have hjs : js "<h3>Top Contributors</h3><ul style=\"list-style:none;padding:0;\">" =
        js "<h3>Top Contributors</h3>" ++ js "<ul style=\"list-style:none;padding:0;\">" := by
      decide
    rw [hjs]
    rfl
  · simp [List.length_take]
  · intro i hi
    rw [List.getElem?_take_of_lt hi]

/-! ## The submit handler -/

theorem resetUI_regions (p : Page) :
    (resetUI p).repoInfo = [] ∧ (resetUI p).contributors = [] ∧ (resetUI p).errorText = [] := by
  unfold resetUI Page.destroyInstance
  cases p.commitChartInstance <;> simp

theorem fetchGitHub_not_ok {α : Type} (status : Nat) (body : Option α)
    (h : statusOk status = false) :
    fetchGitHub (Response.http status body) = .error ⟨some status⟩ := by
  simp [fetchGitHub, h]

/-- C7: for a parsable URL whose metadata fetch fails with the thrown value
`err`, the handler shows the message for 404, for 403 or the generic one
according to `err.status` (which is the HTTP status of a response outside
the success range),
requests nothing but the metadata endpoint, and leaves the repo-info and
contributor regions empty. -/
theorem submit_metadata_failure (net : Network) (value : JsString) (w : World)
    (parsed : RepoIdentifier) (err : JsError)
    (hparse : parseRepoUrl (trim value) = some parsed)
    (hfail : fetchGitHub (net.repo (js "/repos/" ++ parsed.owner ++ js "/" ++ parsed.repo)) =
      .error err) :
    (submit net value w).page.errorText =
      (if err.status = some 404 then js "Repository not found."
       else if err.status = some 403 then
         js "API rate limit exceeded. Please try again later."
       else js "Failed to fetch data from GitHub.") ∧
    (∀ status body,
      net.repo (js "/repos/" ++ parsed.owner ++ js "/" ++ parsed.repo) = .http status body →
        statusOk status = false → err.status = some status) ∧
    (submit net value w).requests =
      w.requests ++ [js "/repos/" ++ parsed.owner ++ js "/" ++ parsed.repo] ∧
    (submit net value w).page.repoInfo = [] ∧
    (submit net value w).page.contributors = [] := by
  have hsub : submit net value w =
      { page := showError (fatalMessage err) (resetUI w.page),
        requests := w.requests ++ [js "/repos/" ++ parsed.owner ++ js "/" ++ parsed.repo] } := by
    unfold submit
    simp only [hparse]
    unfold submitTry
    simp only [hfail]
    rfl
  have hreg := resetUI_regions w.page
  refine ⟨?_, ?_, ?_, ?_, ?_⟩
  · rw [hsub]; rfl
  · intro status body hresp hstatus
    rw [hresp, fetchGitHub_not_ok status body hstatus] at hfail
    cases hfail
    rfl
  · rw [hsub]
  · rw [hsub]; exact hreg.1
  · rw [hsub]; exact hreg.2.1

theorem submit_metadata_failure_witness :
    parseRepoUrl (trim (js " https://github.com/o/r ")) = some ⟨js "o", js "r"⟩ ∧
    fetchGitHub (Response.http 404 none : Response RepoData) = .error ⟨some 404⟩ ∧
    (submit
      { repo := fun _ => .http 404 none,
        contributors := fun _ => .networkError,
        commitActivity := fun _ => .networkError }
      (js " https://github.com/o/r ") ⟨Page.initial, []⟩).page.errorText =
        js "Repository not found." ∧
    (submit
      { repo := fun _ => .http 404 none,
        contributors := fun _ => .networkError,
        commitActivity := fun _ => .networkError }
      (js " https://github.com/o/r ") ⟨Page.initial, []⟩).requests = [js "/repos/o/r"] :=
  ⟨by decide, rfl,
    (submit_metadata_failure
      { repo := fun _ => .http 404 none,
        contributors := fun _ => .networkError,
        commitActivity := fun _ => .networkError }
      (js " https://github.com/o/r ") ⟨Page.initial, []⟩ ⟨js "o", js "r"⟩ ⟨some 404⟩
      (by decide) rfl).1,
    (submit_metadata_failure
      { repo := fun _ => .http 404 none,
        contributors := fun _ => .networkError,
        commitActivity := fun _ => .networkError }
      (js " https://github.com/o/r ") ⟨Page.initial, []⟩ ⟨js "o", js "r"⟩ ⟨some 404⟩
      (by decide) rfl).2.2.1⟩

theorem fetchGitHub_error_status {α : Type} (res : Response α) (err : JsError)
    (h : fetchGitHub res = .error err) : err.status ≠ some 202 := by
  cases res with
  | networkError =>
    simp only [fetchGitHub, Except.error.injEq] at h
    subst h
    simp
  | http status body =>
    simp only [fetchGitHub] at h
    cases hs : statusOk status with
    | false =>
      simp only [hs, Bool.not_false, if_true, Except.error.injEq] at h
      subst h
      intro h202
      simp only [Option.some.injEq] at h202
      subst h202
      simp [statusOk] at hs
    | true =>
      simp only [hs, Bool.not_true, Bool.false_eq_true, if_false] at h
      cases body with
      | none =>
        simp only [Except.error.injEq] at h
        subst h
        simp
      | some v => cases h

theorem buildChart_errorText (last7 : List DayEntry) (p : Page) :
    (buildChart last7 p).errorText = p.errorText := by
  unfold buildChart Page.newChart Page.destroyInstance
  cases p.commitChartInstance <;> rfl

theorem renderCommitActivity_errorText (weeks : List (Option Week)) (p q : Page)
    (hq : renderCommitActivity weeks p = .ok q) : q.errorText = p.errorText := by
  unfold renderCommitActivity at hq
  split at hq
  · cases hq; rfl
  · split at hq
    · simp only at hq
      split at hq
      · cases hq; exact buildChart_errorText _ _
      · split at hq
        · cases hq; rfl
        · cases hq; exact buildChart_errorText _ _
    · cases hq

theorem renderContributorsPayload_errorText (c : Payload Contributor) (p : Page) :
    (renderContributorsPayload c p).errorText = p.errorText := by
  cases c with
  | items xs =>
    show (renderContributors xs p).errorText = p.errorText
    unfold renderContributors
    split <;> rfl
  | nonArray => rfl

theorem submitTry_errorText (net : Network) (parsed : RepoIdentifier) (w : World) :
    (submitTry net parsed w).1.page.errorText = w.page.errorText ∨
    (submitTry net parsed w).1.page.errorText = js "Could not fetch commit activity." := by
  unfold submitTry
  simp only
  cases fetchGitHub (net.repo (js "/repos/" ++ parsed.owner ++ js "/" ++ parsed.repo)) with
  | error err => exact Or.inl rfl
  | ok repoData =>
    simp only
    generalize (match fetchGitHub (net.contributors
        (js "/repos/" ++ parsed.owner ++ js "/" ++ parsed.repo ++
          js "/contributors?per_page=10")) with
      | .ok v => v
      | .error _ => Payload.items []) = contributors
    cases hc : fetchGitHub (net.commitActivity
        (js "/repos/" ++ parsed.owner ++ js "/" ++ parsed.repo ++
          js "/stats/commit_activity")) with
    | error err =>
      have h202 := fetchGitHub_error_status _ _ hc
      simp only [h202, if_false]
      exact Or.inr rfl
    | ok v =>
      simp only
      cases v with
      | nonArray => exact Or.inl (renderContributorsPayload_errorText _ _)
      | items xs =>
        cases xs with
        | nil => exact Or.inl (renderContributorsPayload_errorText _ _)
        | cons x xs =>
          simp only
          cases hr : renderCommitActivity (x :: xs)
              (((w.request (js "/repos/" ++ parsed.owner ++ js "/" ++ parsed.repo)).onPage
                (renderRepoInfo repoData)).request
                  (js "/repos/" ++ parsed.owner ++ js "/" ++ parsed.repo ++
                    js "/contributors?per_page=10") |>.onPage
                (renderContributorsPayload contributors) |>.request
                  (js "/repos/" ++ parsed.owner ++ js "/" ++ parsed.repo ++
                    js "/stats/commit_activity")).page with
          | ok q =>
            left
            simp only [hr]
            rw [renderCommitActivity_errorText _ _ _ hr]
            exact renderContributorsPayload_errorText _ _
          | error e =>
            left
            simp only [hr]
            exact renderContributorsPayload_errorText _ _

theorem ne_pending_of_length (m : JsString) (h : m.length ≠ 80) : m ≠ pendingMessage := by
  intro hm
  subst hm
  exact h (by decide)

theorem fatalMessage_ne_pending (err : JsError) : fatalMessage err ≠ pendingMessage := by
  unfold fatalMessage
  split
  · exact ne_pending_of_length _ (by decide)
  · split
    · exact ne_pending_of_length _ (by decide)
    · exact ne_pending_of_length _ (by decide)

/-- The pending message is never shown: a response of status 202 is inside
the success range, so the branch `err.status === 202` of the handler is not
reached, whatever the network answers. -/
theorem submit_never_pending (net : Network) (value : JsString) (w : World) :
    (submit net value w).page.errorText ≠ pendingMessage := by
  have hreset : (w.onPage resetUI).page.errorText = [] := (resetUI_regions w.page).2.2
  unfold submit
  simp only
  cases parseRepoUrl (trim value) with
  | none =>
    show js "Invalid GitHub repo URL." ≠ pendingMessage
    exact ne_pending_of_length _ (by decide)
  | some parsed =>
    simp only
    have htry := submitTry_errorText net parsed (w.onPage resetUI)
    rcases hres : submitTry net parsed (w.onPage resetUI) with ⟨w2, e⟩
    rw [hres] at htry
    cases e with
    | none =>
      show w2.page.errorText ≠ pendingMessage
      rcases htry with h1 | h1
      · have h2 : w2.page.errorText = [] := h1.trans hreset
        rw [h2]
        exact ne_pending_of_length _ (by decide)
      · have h2 : w2.page.errorText = js "Could not fetch commit activity." := h1
        rw [h2]
        exact ne_pending_of_length _ (by decide)
    | some err =>
      show fatalMessage err ≠ pendingMessage
      exact fatalMessage_ne_pending err

/-- C8, the code at a commit-activity response of status 202: status 202 is
in the success range, so `fetchGitHub` does not throw; with the body `{}` the
handler shows no message at all (not the pending message), renders the
contributor region from the contributors response and builds no chart. -/
theorem submit_commit_activity_202 :
    statusOk 202 = true ∧
    (submit
      { repo := fun _ =>
          .http 200 (some ⟨js "o/r", none, JsNumber.ofInt 1 (by decide), JsNumber.ofInt 2 (by decide),
            JsNumber.ofInt 3 (by decide), js "https://github.com/o/r"⟩),
        contributors := fun _ =>
          .http 200 (some (.items [⟨js "a", js "https://a.png", js "https://github.com/a",
            JsNumber.ofInt 5 (by decide)⟩])),
        commitActivity := fun _ => .http 202 (some .nonArray) }
      (js "https://github.com/o/r") ⟨Page.initial, []⟩).page.errorText = [] ∧
    (submit
      { repo := fun _ =>
          .http 200 (some ⟨js "o/r", none, JsNumber.ofInt 1 (by decide), JsNumber.ofInt 2 (by decide),
            JsNumber.ofInt 3 (by decide), js "https://github.com/o/r"⟩),
        contributors := fun _ =>
          .http 200 (some (.items [⟨js "a", js "https://a.png", js "https://github.com/a",
            JsNumber.ofInt 5 (by decide)⟩])),
        commitActivity := fun _ => .http 202 (some .nonArray) }
      (js "https://github.com/o/r") ⟨Page.initial, []⟩).page.errorText ≠ pendingMessage ∧
    (submit
      { repo := fun _ =>
          .http 200 (some ⟨js "o/r", none, JsNumber.ofInt 1 (by decide), JsNumber.ofInt 2 (by decide),
            JsNumber.ofInt 3 (by decide), js "https://github.com/o/r"⟩),
        contributors := fun _ =>
          .http 200 (some (.items [⟨js "a", js "https://a.png", js "https://github.com/a",
            JsNumber.ofInt 5 (by decide)⟩])),
        commitActivity := fun _ => .http 202 (some .nonArray) }
      (js "https://github.com/o/r") ⟨Page.initial, []⟩).page.contributors =
        (renderContributors
          [⟨js "a", js "https://a.png", js "https://github.com/a",
            JsNumber.ofInt 5 (by decide)⟩]
          Page.initial).contributors ∧
    (submit
      { repo := fun _ =>
          .http 200 (some ⟨js "o/r", none, JsNumber.ofInt 1 (by decide), JsNumber.ofInt 2 (by decide),
            JsNumber.ofInt 3 (by decide), js "https://github.com/o/r"⟩),
        contributors := fun _ =>
          .http 200 (some (.items [⟨js "a", js "https://a.png", js "https://github.com/a",
            JsNumber.ofInt 5 (by decide)⟩])),
        commitActivity := fun _ => .http 202 (some .nonArray) }
      (js "https://github.com/o/r") ⟨Page.initial, []⟩).page.charts = [] := by
  refine ⟨by decide, rfl, ?_, rfl, rfl⟩
  intro h
  exact absurd (congrArg List.length h) (by decide)

/-! ## The pattern of `parseRepoUrl` -/

theorem litChar_some {β : Type} (p : Nat) (k : JsString → Option β) (u : JsString) (r : β)
    (h : litChar p k u = some r) :
    ∃ c rest, u = c :: rest ∧ canonicalize c = canonicalize p ∧ k rest = some r := by
  cases u with
  | nil => simp [litChar] at h
  | cons c rest =>
    simp only [litChar] at h
    by_cases hc : canonicalize c = canonicalize p
    · rw [if_pos hc] at h
      exact ⟨c, rest, rfl, hc, h⟩
    · rw [if_neg hc] at h
      cases h

theorem litStr_some {β : Type} (ps : JsString) (k : JsString → Option β) (u : JsString) (r : β)
    (h : litStr ps k u = some r) :
    ∃ xs rest, u = xs ++ rest ∧ xs.map canonicalize = ps.map canonicalize ∧
      k rest = some r := by
  induction ps generalizing u with
  | nil => exact ⟨[], u, rfl, rfl, h⟩
  | cons p ps ih =>
    obtain ⟨c, rest, rfl, hc, hk⟩ := litChar_some p _ u r h
    obtain ⟨xs, rest2, rfl, hxs, hk2⟩ := ih rest hk
    exact ⟨c :: xs, rest2, rfl, by simp [hc, hxs], hk2⟩

theorem litStr_append {β : Type} (ps : JsString) (k : JsString → Option β)
    (xs rest : JsString) (h : xs.map canonicalize = ps.map canonicalize) :
    litStr ps k (xs ++ rest) = k rest := by
  induction ps generalizing xs with
  | nil =>
    have : xs = [] := by simpa using h
    subst this
    rfl
  | cons p ps ih =>
    cases xs with
    | nil => simp at h
    | cons c xs =>
      simp only [List.map_cons, List.cons.injEq] at h
      show litChar p (litStr ps k) (c :: (xs ++ rest)) = k rest
      unfold litChar
      simp only [h.1, if_true]
      exact ih xs h.2

theorem anyChar_some {β : Type} (k : JsString → Option β) (u : JsString) (r : β)
    (h : anyChar k u = some r) :
    ∃ c rest, u = c :: rest ∧ isLineTerminator c = false ∧ k rest = some r := by
  cases u with
  | nil => simp [anyChar] at h
  | cons c rest =>
    simp only [anyChar] at h
    cases hc : isLineTerminator c with
    | true => simp [hc] at h
    | false =>
      simp only [hc, Bool.false_eq_true, if_false] at h
      exact ⟨c, rest, rfl, hc, h⟩

theorem endOrTerminator_some {β : Type} (k : JsString → Option β) (u : JsString) (r : β)
    (h : endOrTerminator k u = some r) :
    u = [] ∨ ∃ c rest, u = c :: rest ∧ isTerminator c = true := by
  cases u with
  | nil => exact Or.inl rfl
  | cons c rest =>
    simp only [endOrTerminator] at h
    cases hc : isTerminator c with
    | true => exact Or.inr ⟨c, rest, rfl, hc⟩
    | false => simp [hc] at h

/-- The lazy capture succeeds with the shortest text the continuation
accepts. -/
theorem lazyPlusAny_shortest {β : Type} (k : JsString → JsString → Option β)
    (xs rest acc : JsString) (r : β) (hne : xs ≠ [])
    (hlt : ∀ c ∈ xs, isLineTerminator c = false)
    (hfail : ∀ n, 0 < n → n < xs.length → k (acc ++ xs.take n) (xs.drop n ++ rest) = none)
    (hok : k (acc ++ xs) rest = some r) :
    lazyPlusAny k acc (xs ++ rest) = some r := by
  induction xs generalizing acc with
  | nil => exact absurd rfl hne
  | cons c xs ih =>
    show lazyPlusAny k acc (c :: (xs ++ rest)) = some r
    unfold lazyPlusAny
    have hc : isLineTerminator c = false := hlt c (List.mem_cons_self _ _)
    simp only [hc, Bool.false_eq_true, if_false]
    cases xs with
    | nil =>
      simp only [List.nil_append]
      rw [hok]
    | cons d ds =>
      have h1 := hfail 1 (by omega) (by simp)
      simp only [List.take_succ_cons, List.take_zero, List.drop_succ_cons, List.drop_zero] at h1
      rw [h1]
      simp only
      apply ih (acc ++ [c]) (by simp)
      · intro x hx
        exact hlt x (List.mem_cons_of_mem _ hx)
      · intro n hn0 hn
        have := hfail (n + 1) (by omega) (by simpa using hn)
        simpa [List.append_assoc] using this
      · simpa [List.append_assoc] using hok

/-- A successful lazy capture took a non-empty text without line
terminators, and the continuation rejected every shorter text. -/
theorem lazyPlusAny_some {β : Type} (k : JsString → JsString → Option β)
    (u acc : JsString) (r : β) (h : lazyPlusAny k acc u = some r) :
    ∃ xs rest, xs ≠ [] ∧ u = xs ++ rest ∧ (∀ c ∈ xs, isLineTerminator c = false) ∧
      k (acc ++ xs) rest = some r ∧
      ∀ n, 0 < n → n < xs.length → k (acc ++ xs.take n) (xs.drop n ++ rest) = none := by
  induction u generalizing acc with
  | nil => simp [lazyPlusAny] at h
  | cons c u ih =>
    unfold lazyPlusAny at h
    split at h
    · cases h
    · rename_i hc
      have hc : isLineTerminator c = false := by simpa using hc
      cases hk : k (acc ++ [c]) u with
      | some r2 =>
        rw [hk] at h
        simp only [Option.some.injEq] at h
        subst h
        refine ⟨[c], u, by simp, rfl, ?_, hk, ?_⟩
        · intro x hx
          simp only [List.mem_singleton] at hx
          subst hx
          exact hc
        · intro n hn0 hn
          simp at hn
          omega
      | none =>
        rw [hk] at h
        simp only at h
        obtain ⟨xs, rest, hne, rfl, hlt, hok, hfail⟩ := ih (acc ++ [c]) h
        refine ⟨c :: xs, rest, by simp, rfl, ?_, by simpa [List.append_assoc] using hok, ?_⟩
        · intro x hx
          rcases List.mem_cons.mp hx with rfl | hx
          · exact hc
          · exact hlt x hx
        · intro n hn0 hn
          cases n with
          | zero => omega
          | succ n =>
            cases n with
            | zero => simpa using hk
            | succ n =>
              have := hfail (n + 1) (by omega) (by simpa using hn)
              simpa [List.append_assoc] using this

theorem canonicalize_eq_slash (c : Nat) (h : canonicalize c = canonicalize 47) : c = 47 := by
  unfold canonicalize at h
  split at h <;> simp at h <;> omega

theorem hostText_length (h : JsString) (hh : HostText h) : h.length = 11 := by
  obtain ⟨h1, d, h2, rfl, e1, -, e2⟩ := hh
  have l1 := congrArg List.length e1
  have l2 := congrArg List.length e2
  simp only [List.length_map] at l1 l2
  have g1 : (js "github").length = 6 := by decide
  have g2 : (js "com/").length = 4 := by decide
  simp only [List.length_append, List.length_cons]
  omega

theorem hostText_slash (h : JsString) (hh : HostText h) : h[10]? = some 47 := by
  obtain ⟨h1, d, h2, rfl, e1, -, e2⟩ := hh
  have l1 := congrArg List.length e1
  have l2 := congrArg List.length e2
  simp only [List.length_map] at l1 l2
  have g1 : (js "github").length = 6 := by decide
  have g2 : (js "com/").length = 4 := by decide
  rw [g1] at l1
  rw [g2] at l2
  match h1, l1, h2, l2, e2 with
  | [a1, a2, a3, a4, a5, a6], _, [b1, b2, b3, b4], _, e2 =>
    have hjs : (js "com/").map canonicalize = [67, 79, 77, canonicalize 47] := by decide
    rw [hjs] at e2
    simp only [List.map_cons, List.map_nil, List.cons.injEq, and_true] at e2
    have := canonicalize_eq_slash b4 e2.2.2.2
    subst this
    rfl

theorem hostMatchHere_of_hostText (h rest : JsString) (hh : HostText h) :
    hostMatchHere (h ++ rest) = true := by
  obtain ⟨h1, d, h2, rfl, e1, hd, e2⟩ := hh
  unfold hostMatchHere
  rw [List.append_assoc, litStr_append _ _ _ _ e1]
  show (anyChar (litStr (js "com/") (fun _ => some ())) (d :: (h2 ++ rest))).isSome = true
  simp only [anyChar, hd, Bool.false_eq_true, if_false]
  rw [litStr_append _ _ _ _ e2]
  rfl

theorem matchHere_some (u : JsString) (m : RegexMatch) (h : matchHere u = some m) :
    ∃ host t, u = host ++ t ∧ HostText host ∧ afterHost t = some m := by
  unfold matchHere at h
  obtain ⟨h1, r1, rfl, e1, k1⟩ := litStr_some _ _ _ _ h
  obtain ⟨d, r2, rfl, hd, k2⟩ := anyChar_some _ _ _ k1
  obtain ⟨h2, r3, rfl, e2, k3⟩ := litStr_some _ _ _ _ k2
  exact ⟨h1 ++ d :: h2, r3, by simp, ⟨h1, d, h2, rfl, e1, hd, e2⟩, k3⟩

theorem matchHere_hostText (host t : JsString) (hh : HostText host) :
    matchHere (host ++ t) = afterHost t := by
  obtain ⟨h1, d, h2, rfl, e1, hd, e2⟩ := hh
  unfold matchHere
  rw [List.append_assoc, litStr_append _ _ _ _ e1]
  show anyChar _ (d :: (h2 ++ t)) = _
  simp only [anyChar, hd, Bool.false_eq_true, if_false]
  rw [litStr_append _ _ _ _ e2]
  rfl

theorem hostText_github : HostText (js "github.com/") :=
  ⟨js "github", 46, js "com/", by decide, rfl, by decide, rfl⟩

/-- No match starts inside a text without a host match that is followed by
`github.com/`: the only `/` of the literal is its last character. -/
theorem matchHere_straddle (v t : JsString) (hv : v ≠ []) (hhost : hostMatchHere v = false) :
    matchHere (v ++ (js "github.com/" ++ t)) = none := by
  cases hm : matchHere (v ++ (js "github.com/" ++ t)) with
  | none => rfl
  | some m =>
    exfalso
    obtain ⟨host, t2, heq, hh, -⟩ := matchHere_some _ _ hm
    have hlen := hostText_length host hh
    have hslash := hostText_slash host hh
    have h10 : (v ++ (js "github.com/" ++ t))[10]? = some 47 := by
      rw [heq, List.getElem?_append_left (by omega)]
      exact hslash
    by_cases hvl : 11 ≤ v.length
    · have htake : host = v.take 11 := by
        have e1 : (v ++ (js "github.com/" ++ t)).take 11 = v.take 11 :=
          List.take_append_of_le_length hvl
        have e2 : (host ++ t2).take 11 = host := by
          rw [List.take_append_of_le_length (by omega), List.take_of_length_le (by omega)]
        rw [← e2, ← heq, e1]
      have hvsplit : v = host ++ v.drop 11 := by
        rw [htake, List.take_append_drop]
      rw [hvsplit, hostMatchHere_of_hostText _ _ hh] at hhost
      cases hhost
    · have hvpos : 0 < v.length := List.length_pos.mpr hv
      rw [List.getElem?_append_right (by omega),
        List.getElem?_append_left (by
          have : (js "github.com/").length = 11 := by decide
          omega)] at h10
      have hj : 10 - v.length < 10 := by omega
      generalize 10 - v.length = j at h10 hj
      interval_cases j <;> revert h10 <;> decide

theorem regexExec_of_matchHere (u : JsString) (m : RegexMatch) (h : matchHere u = some m) :
    regexExec u = some m := by
  cases u with
  | nil => exact h
  | cons c rest =>
    unfold regexExec
    rw [h]

theorem regexExec_skip (pre t : JsString) (hpre : hostSearch pre = false) :
    regexExec (pre ++ (js "github.com/" ++ t)) = regexExec (js "github.com/" ++ t) := by
  induction pre with
  | nil => rfl
  | cons c pre ih =>
    simp only [hostSearch, Bool.or_eq_false_iff] at hpre
    have hnone := matchHere_straddle (c :: pre) t (by simp) hpre.1
    show regexExec (c :: (pre ++ (js "github.com/" ++ t))) = _
    unfold regexExec
    rw [show c :: (pre ++ (js "github.com/" ++ t)) = (c :: pre) ++ (js "github.com/" ++ t) from rfl,
      hnone]
    exact ih hpre.2

theorem litChar_slash_none {β : Type} (k : JsString → Option β) (c : Nat) (rest : JsString)
    (hc : isTerminator c = false) : litChar 47 k (c :: rest) = none := by
  have hne : ¬ canonicalize c = canonicalize 47 := by
    intro h
    have := canonicalize_eq_slash c h
    subst this
    simp [isTerminator] at hc
  simp [litChar, hne]

theorem drop_cons_mem (xs : JsString) (n : Nat) (hn : n < xs.length) :
    ∃ c rest, xs.drop n = c :: rest ∧ c ∈ xs := by
  refine ⟨xs[n], xs.drop (n + 1), ?_, List.getElem_mem hn⟩
  exact List.drop_eq_getElem_cons hn

/-- The two captures on `owner/repo` followed by a terminator or the end. -/
theorem afterHost_owner_repo (owner repo suffix : JsString)
    (howner : owner ≠ []) (hrepo : repo ≠ [])
    (hownerc : ∀ c ∈ owner, isTerminator c = false ∧ isLineTerminator c = false)
    (hrepoc : ∀ c ∈ repo, isTerminator c = false ∧ isLineTerminator c = false)
    (hsuffix : suffix = [] ∨ ∃ c rest, suffix = c :: rest ∧ isTerminator c = true) :
    afterHost (owner ++ 47 :: (repo ++ suffix)) = some ⟨owner, repo⟩ := by
  unfold afterHost
  apply lazyPlusAny_shortest _ owner _ [] _ howner (fun c hc => (hownerc c hc).2)
  · intro n _ hn
    obtain ⟨c, rest, hdrop, hmem⟩ := drop_cons_mem owner n hn
    rw [hdrop]
    exact litChar_slash_none _ c _ (hownerc c hmem).1
  · show litChar 47 _ (47 :: (repo ++ suffix)) = _
    simp only [litChar, if_true, List.nil_append]
    apply lazyPlusAny_shortest _ repo _ [] _ hrepo (fun c hc => (hrepoc c hc).2)
    · intro n _ hn
      obtain ⟨c, rest, hdrop, hmem⟩ := drop_cons_mem repo n hn
      rw [hdrop]
      simp [endOrTerminator, (hrepoc c hmem).1]
    · rcases hsuffix with rfl | ⟨c, rest, rfl, hc⟩
      · simp [endOrTerminator]
      · simp [endOrTerminator, hc]

/-- C4: for a non-empty owner and repo without `/`, `#`, `?` and line
terminators, a text before that contains no match of the pattern
`github.com\/`, and a text after that is empty or begins with `/`, `#` or `?`,
`parseRepoUrl` returns exactly the owner and the repo; nothing is stripped
from the repo, a trailing `.git` included. -/
theorem parseRepoUrl_owner_repo (pre owner repo suffix : JsString)
    (hpre : hostSearch pre = false)
    (howner : owner ≠ []) (hrepo : repo ≠ [])
    (hownerc : ∀ c ∈ owner, isTerminator c = false ∧ isLineTerminator c = false)
    (hrepoc : ∀ c ∈ repo, isTerminator c = false ∧ isLineTerminator c = false)
    (hsuffix : suffix = [] ∨ ∃ c rest, suffix = c :: rest ∧ isTerminator c = true) :
    parseRepoUrl (pre ++ js "github.com/" ++ owner ++ js "/" ++ repo ++ suffix) =
      some ⟨owner, repo⟩ := by
  have hshape : pre ++ js "github.com/" ++ owner ++ js "/" ++ repo ++ suffix =
      pre ++ (js "github.com/" ++ (owner ++ 47 :: (repo ++ suffix))) := by
    have : js "/" = [47] := by decide
    simp [this, List.append_assoc]
  have hmatch : matchHere (js "github.com/" ++ (owner ++ 47 :: (repo ++ suffix))) =
      some ⟨owner, repo⟩ := by
    rw [matchHere_hostText _ _ hostText_github]
    exact afterHost_owner_repo owner repo suffix howner hrepo hownerc hrepoc hsuffix
  unfold parseRepoUrl
  rw [hshape, regexExec_skip pre _ hpre, regexExec_of_matchHere _ _ hmatch]

theorem parseRepoUrl_owner_repo_witness :
    hostSearch (js "https://") = false ∧
    js "o" ≠ [] ∧ js "r.git" ≠ [] ∧
    (∀ c ∈ js "o", isTerminator c = false ∧ isLineTerminator c = false) ∧
    (∀ c ∈ js "r.git", isTerminator c = false ∧ isLineTerminator c = false) ∧
    parseRepoUrl (js "https://github.com/o/r.git") = some ⟨js "o", js "r.git"⟩ :=
  ⟨by decide, by decide, by decide, by decide, by decide,
    parseRepoUrl_owner_repo (js "https://") (js "o") (js "r.git") [] (by decide) (by decide)
      (by decide) (by decide) (by decide) (Or.inl rfl)⟩

/-- C5, the code on `https://github.com//a/#b`: the owner returned is `/a`,
which holds a slash, and the repo returned is `#b`, which holds the
terminator `#`; on `https://github.com/o/?tab=repositories` the repo returned
is `?tab=repositories`. -/
theorem parseRepoUrl_leading_terminator :
    parseRepoUrl (js "https://github.com//a/#b") = some ⟨js "/a", js "#b"⟩ ∧
    (47 ∈ js "/a") ∧ (35 ∈ js "#b") ∧ isTerminator 35 = true ∧
    parseRepoUrl (js "https://github.com/o/?tab=repositories") =
      some ⟨js "o", js "?tab=repositories"⟩ ∧
    (63 ∈ js "?tab=repositories") ∧ isTerminator 63 = true := by
  decide

theorem literalHostSearch_of_literal (pre host rest : JsString) (hh : LiteralHost host) :
    literalHostSearch (pre ++ host ++ rest) = true := by
  have hlen : host.length = 11 := by
    have := congrArg List.length hh
    simp only [List.length_map] at this
    rw [this]
    decide
  induction pre with
  | nil =>
    cases host with
    | nil => simp at hlen
    | cons c host =>
      have htake : ((c :: host) ++ rest).take 11 = c :: host := by
        rw [List.take_append_of_le_length (by omega), List.take_of_length_le (by omega)]
      show literalHostSearch (c :: (host ++ rest)) = true
      unfold literalHostSearch
      rw [show c :: (host ++ rest) = (c :: host) ++ rest from rfl, htake]
      unfold LiteralHost at hh
      simp [hh]
  | cons c pre ih =>
    show literalHostSearch (c :: (pre ++ host ++ rest)) = true
    unfold literalHostSearch
    rw [ih]
    simp

theorem literalHostSearch_of_segment (s : JsString) (h : HasRepoSegment s) :
    literalHostSearch s = true := by
  obtain ⟨pre, host, owner, repo, rest, rfl, hh, -, -⟩ := h
  have := literalHostSearch_of_literal pre host (owner ++ [47] ++ repo ++ rest) hh
  simpa [List.append_assoc] using this

/-- C6, the code on `https://githubXcom/o/r`: the input holds no text
`github.com/` in any letter case, so no segment `github.com/<owner>/<repo>`,
and `parseRepoUrl` returns owner `o` and repo `r` instead of `null`, the `.`
of the pattern matching the `X`. -/
theorem parseRepoUrl_unescaped_dot :
    parseRepoUrl (js "https://githubXcom/o/r") = some ⟨js "o", js "r"⟩ ∧
    ¬ HasRepoSegment (js "https://githubXcom/o/r") := by
  refine ⟨by decide, fun h => ?_⟩
  have := literalHostSearch_of_segment _ h
  revert this
  decide

/-! ## What `parseRepoUrl` guarantees of a result -/

theorem regexExec_some (s : JsString) (m : RegexMatch) (h : regexExec s = some m) :
    ∃ pre u, s = pre ++ u ∧ matchHere u = some m := by
  induction s with
  | nil => exact ⟨[], [], rfl, h⟩
  | cons c rest ih =>
    unfold regexExec at h
    cases hm : matchHere (c :: rest) with
    | some r =>
      rw [hm] at h
      simp only [Option.some.injEq] at h
      subst h
      exact ⟨[], c :: rest, rfl, hm⟩
    | none =>
      rw [hm] at h
      obtain ⟨pre, u, rfl, hu⟩ := ih h
      exact ⟨c :: pre, u, rfl, hu⟩

/-- The second capture succeeds on every non-empty text without line
terminators that is followed by the end of the input or by a terminator. -/
theorem lazyPlusAny_repo_isSome {β : Type} (f : JsString → β) (zs tl acc : JsString)
    (hne : zs ≠ []) (hlt : ∀ c ∈ zs, isLineTerminator c = false)
    (htl : tl = [] ∨ ∃ c rest, tl = c :: rest ∧ isTerminator c = true) :
    (lazyPlusAny (fun g2 => endOrTerminator (fun _ => some (f g2))) acc (zs ++ tl)).isSome =
      true := by
  induction zs generalizing acc with
  | nil => exact absurd rfl hne
  | cons c zs ih =>
    show (lazyPlusAny _ acc (c :: (zs ++ tl))).isSome = true
    unfold lazyPlusAny
    have hc : isLineTerminator c = false := hlt c (List.mem_cons_self _ _)
    simp only [hc, Bool.false_eq_true, if_false]
    cases hk : endOrTerminator (fun _ => some (f (acc ++ [c]))) (zs ++ tl) with
    | some r => rfl
    | none =>
      simp only
      cases zs with
      | nil =>
        exfalso
        rcases htl with rfl | ⟨d, rest, rfl, hd⟩
        · simp [endOrTerminator] at hk
        · simp [endOrTerminator, hd] at hk
      | cons d ds =>
        exact ih (acc ++ [c]) (by simp) (fun x hx => hlt x (List.mem_cons_of_mem _ hx))

theorem mem_tail_drop (xs : JsString) (c : Nat) (hc : c ∈ xs.tail) :
    ∃ n, 0 < n ∧ n < xs.length ∧ xs.drop n = c :: xs.drop (n + 1) := by
  cases xs with
  | nil => simp at hc
  | cons x xs =>
    simp only [List.tail_cons] at hc
    obtain ⟨i, hi, rfl⟩ := List.getElem_of_mem hc
    refine ⟨i + 1, by omega, by simpa using hi, ?_⟩
    simp only [List.drop_succ_cons]
    exact List.drop_eq_getElem_cons hi

/-- What holds of every result of `parseRepoUrl`: the input holds a match of
`github.com\/` followed by the owner, a `/`, the repo and then the end of the
input or a terminator; owner and repo are non-empty and free of line
terminators, the owner has no `/` after its first code unit and the repo has
no `/`, `#` or `?` after its first code unit. -/
theorem parseRepoUrl_some_shape (s : JsString) (id : RepoIdentifier)
    (h : parseRepoUrl s = some id) :
    ∃ pre host rest,
      s = pre ++ host ++ id.owner ++ [47] ++ id.repo ++ rest ∧ HostText host ∧
      id.owner ≠ [] ∧ id.repo ≠ [] ∧
      (∀ c ∈ id.owner, isLineTerminator c = false) ∧
      (∀ c ∈ id.repo, isLineTerminator c = false) ∧
      (∀ c ∈ id.owner.tail, c ≠ 47) ∧
      (∀ c ∈ id.repo.tail, isTerminator c = false) ∧
      (rest = [] ∨ ∃ c rest2, rest = c :: rest2 ∧ isTerminator c = true) := by
  unfold parseRepoUrl at h
  cases hm : regexExec s with
  | none => rw [hm] at h; cases h
  | some m =>
    rw [hm] at h
    simp only [Option.some.injEq] at h
    subst h
    obtain ⟨pre, u, rfl, hu⟩ := regexExec_some s m hm
    obtain ⟨host, t, rfl, hhost, hafter⟩ := matchHere_some u m hu
    unfold afterHost at hafter
    obtain ⟨xs, r1, hxs, rfl, hxlt, hk1, hfail1⟩ := lazyPlusAny_some _ _ _ _ hafter
    obtain ⟨c, r2, rfl, hc, hk2⟩ := litChar_some _ _ _ _ hk1
    have hc47 := canonicalize_eq_slash c hc
    subst hc47
    obtain ⟨ys, r3, hys, rfl, hylt, hk3, hfail2⟩ := lazyPlusAny_some _ _ _ _ hk2
    have hend := endOrTerminator_some _ _ _ hk3
    have hmeq : m = ⟨xs, ys⟩ := by
      rcases hend with rfl | ⟨d, rest, rfl, hd⟩
      · simpa [endOrTerminator] using hk3.symm
      · simpa [endOrTerminator, hd] using hk3.symm
    subst hmeq
    refine ⟨pre, host, r3, by simp [List.append_assoc], hhost, hxs, hys, hxlt, hylt, ?_, ?_,
      hend⟩
    · intro c hc h47
      subst h47
      obtain ⟨n, hn0, hn, hdrop⟩ := mem_tail_drop xs 47 hc
      have hnone := hfail1 n hn0 hn
      rw [hdrop] at hnone
      simp only [List.cons_append, litChar, if_true] at hnone
      have hsome := lazyPlusAny_repo_isSome (fun g2 => (⟨[] ++ xs.take n, g2⟩ : RegexMatch))
        (xs.drop (n + 1) ++ 47 :: ys) r3 [] (by simp)
        (by
          intro x hx
          rcases List.mem_append.mp hx with hx | hx
          · exact hxlt x (List.mem_of_mem_drop hx)
          · rcases List.mem_cons.mp hx with rfl | hx
            · decide
            · exact hylt x hx)
        hend
      rw [show (xs.drop (n + 1) ++ 47 :: ys) ++ r3 = xs.drop (n + 1) ++ 47 :: (ys ++ r3) by simp,
        hnone] at hsome
      cases hsome
    · intro c hc
      obtain ⟨n, hn0, hn, hdrop⟩ := mem_tail_drop ys c hc
      have hnone := hfail2 n hn0 hn
      rw [hdrop] at hnone
      cases hct : isTerminator c with
      | false => rfl
      | true => simp [endOrTerminator, hct] at hnone

end RepoAnalyzer
